import Mathlib

/-!
Shallow embedding of the FiddoJS validation engine (src/unnamed/part_001)
and proofs about its orchestration, caching, gating, ordering, message and
remote-request behaviour.

Conventions of the embedding:
* JavaScript input values are `JsVal` (a string read from an input, or an
  array of strings read from a multi-select / group).
* Promises are modelled by their settled outcome: `Except` for the two
  orchestration helpers, and dedicated outcome types for
  `Validator.validate` and `Field.whenValidate`.
* A constraint's evaluation at the current value is deterministic data
  (`CEval`): this encodes the "no observable side effect" premise — both
  execution strategies observe the same per-constraint outcome.
-/

namespace Fiddo

/-- A JavaScript form value: a string (text input) or an array of strings
(multi-select, checkbox group, group of child values). -/
inductive JsVal
  | str (s : String)
  | arr (xs : List String)
deriving DecidableEq, Repr

/-- JS `value.toString()`: identity on strings, `join(",")` on arrays. -/
def jsToString : JsVal → String
  | .str s => s
  | .arr xs => String.intercalate "," xs

/-- JS `string.trim()`: strip leading and trailing whitespace (modelled over
the ASCII whitespace characters `Char.isWhitespace` covers, which the
repository's values use). -/
def jsTrim (s : String) : String :=
  ⟨((s.data.dropWhile Char.isWhitespace).reverse.dropWhile Char.isWhitespace).reverse⟩

/-- `Utils.size` applied to a (trimmed) string is its length; `Utils.empty(value)`
is `!Utils.size(value?.toString().trim())`, i.e. the trimmed string form is empty. -/
def utilsEmpty (v : JsVal) : Bool :=
  ((jsTrim (jsToString v)).length == 0)

/-- `Utils.arraysEqual`: same length and elementwise `===`. -/
def arraysEqual (a b : List String) : Bool :=
  a == b

/-- `Utils.areEquals`: both arrays → `arraysEqual`, otherwise strict `===`
(which is `false` across distinct runtime types, and value equality on strings). -/
def areEquals : JsVal → JsVal → Bool
  | .arr a, .arr b => arraysEqual a b
  | .str a, .str b => a == b
  | _, _ => false

/-- `Utils.areEquals(value, cached)` where the cached slot may be `null`
(`_lastValidatedValue` starts as `null`; `x === null` is `false` for a
string or array `x`). -/
def areEqualsOpt (v : JsVal) : Option JsVal → Bool
  | none => false
  | some w => areEquals v w

/-- `Utils.all`: `Promise.allSettled` then reject with the list of all
rejection reasons if any, else resolve with all values. -/
def utilsAll {ε α : Type} (xs : List (Except ε α)) : Except (List ε) (List α) :=
  let errors := xs.filterMap (fun r => match r with | .error e => some e | .ok _ => none)
  if errors.isEmpty then
    .ok (xs.filterMap (fun r => match r with | .ok v => some v | .error _ => none))
  else
    .error errors

/-- `Utils.runSequential`: run items one at a time; on the first failure,
push the reason and reject with the accumulated error list (which at that
point holds exactly that reason); resolve with all values if every item passes.
A thunk that throws is handled by the same push-and-reject path, so an input
item here is simply the settled outcome of one item. -/
def utilsRunSequential {ε α : Type} : List (Except ε α) → Except (List ε) (List α)
  | [] => .ok []
  | .error e :: _ => .error [e]
  | .ok v :: rest =>
    match utilsRunSequential rest with
    | .ok vs => .ok (v :: vs)
    | .error es => .error es

theorem filterMap_errors_isEmpty {ε α : Type} (xs : List (Except ε α)) :
    (xs.filterMap (fun r => match r with | .error e => some e | .ok _ => none)).isEmpty
      = xs.all (fun r => r.isOk) := by
  induction xs with
  | nil => rfl
  | cons x rest ih =>
    cases x with
    | ok v => simpa using ih
    | error e => simp [Except.isOk, Except.toBool]

theorem utilsAll_isOk {ε α : Type} (xs : List (Except ε α)) :
    (utilsAll xs).isOk = xs.all (fun r => r.isOk) := by
  rw [utilsAll, ← filterMap_errors_isEmpty]
  by_cases h :
      (xs.filterMap (fun r => match r with | .error e => some e | .ok _ => none)).isEmpty
    <;> simp [h, Except.isOk, Except.toBool]

theorem utilsRunSequential_isOk {ε α : Type} (xs : List (Except ε α)) :
    (utilsRunSequential xs).isOk = xs.all (fun r => r.isOk) := by
  induction xs with
  | nil => rfl
  | cons x rest ih =>
    cases x with
    | ok v =>
      simp only [utilsRunSequential, List.all_cons]
      cases h : utilsRunSequential rest <;>
        simp_all [Except.isOk, Except.toBool]
    | error e =>
      simp [utilsRunSequential, Except.isOk, Except.toBool]

/-! ## Message formatting, ValidationError and the Validator contract -/

/-- A validation-rule requirement: a scalar boolean, a scalar string,
or an array of strings (e.g. `range` → `["3","7"]`). -/
inductive ReqVal
  | b (v : Bool)
  | s (v : String)
  | list (vs : List String)
deriving DecidableEq, Repr

/-- Scan for the first `%s` and splice in the replacement. -/
def replaceFirstChars (repl : List Char) : List Char → List Char
  | [] => []
  | c :: rest =>
    if c = '%' then
      match rest with
      | 's' :: tail => repl ++ tail
      | _ => c :: replaceFirstChars repl rest
    else c :: replaceFirstChars repl rest

/-- Replace the first occurrence of the `%s` placeholder in `s` with `repl`
(JS `string.replace(/%s/i, repl)`; the templates in the repository use
lower-case `%s` only). -/
def replaceFirstPlaceholder (s repl : String) : String :=
  ⟨replaceFirstChars repl.data s.data⟩

/-- `Utils.formatMessage`: for an object/array parameter, substitute one `%s`
per element in order; for a scalar, one substitution. An empty (falsy)
template short-circuits (`if (!string) return;`, modelled as `""`). -/
def formatMessage (s : String) (params : ReqVal) : String :=
  if s = "" then ""
  else
    match params with
    | .list ps => ps.foldl (fun acc p => replaceFirstPlaceholder acc p) s
    | .s p => replaceFirstPlaceholder s p
    | .b p => replaceFirstPlaceholder s (if p then "true" else "false")

/-- `ValidationError` — `{assert: ruleName, errorMessage: message}`. -/
structure VErr where
  assert : String
  errorMessage : String
deriving DecidableEq, Repr

/-- A raw JavaScript `Error` (the non-validation, unexpected kind). -/
structure JsError where
  message : String
deriving DecidableEq, Repr

/-- The data of a resolved `Validator` relevant here: name, resolved message
template (constructor: `message || Messages[name] || 'Validation failed'`)
and priority (base class default `0`). -/
structure ValidatorM where
  name : String
  message : String
  priority : Int := 0
deriving DecidableEq, Repr

/-- What a thenable returned by a predicate can reject with: a string
(server `errorMessage`, a status text, the validator's message) or a raw
`Error` (transport error, a throwing `isValidFn`). -/
inductive RejReason
  | str (s : String)
  | err (e : JsError)
deriving DecidableEq, Repr

/-- `reason?.message || reason || this.message` inside `Validator._reject`:
a string reason is used directly (falling back to the validator message when
empty); an `Error`'s message is used; an `Error` with an empty (falsy)
message falls through to the object itself, which `Utils.formatMessage`
turns into `''` (its non-string branch) — encoded as `none`. -/
def rejectBaseMessage (fallback : String) : RejReason → Option String
  | .str s => some (if s = "" then fallback else s)
  | .err e => if e.message = "" then none else some e.message

/-- `Validator._reject(reason, requirements)`: formats the base message with
the requirement values and rejects with a `ValidationError` carrying the
validator's name. -/
def validatorRejectWith (v : ValidatorM) (reason : RejReason) (req : ReqVal) : VErr :=
  match rejectBaseMessage v.message reason with
  | some m => ⟨v.name, formatMessage m req⟩
  | none => ⟨v.name, ""⟩

/-- The observable result of calling the predicate `validateFn`:
a synchronous truthy/falsy value, a thenable that later settles, or a
synchronous throw. -/
inductive FnRes
  | sync (truthy : Bool)
  | thenable (r : Except RejReason (Option String))
  | throws (e : JsError)
deriving Repr

/-- The settled outcome of `Validator.validate`: a synchronous re-thrown
exception, a resolution (optionally carrying a success message), or a
rejection — which by construction always carries a `ValidationError`. -/
inductive VOutcome
  | throwsSync (e : JsError)
  | resolves (success : Option String)
  | rejects (e : VErr)
deriving DecidableEq, Repr

/-- `Validator.validate(value, requirements, field)` given the predicate's
observable result. Returns the outcome together with whether the
`console.error` logging branch ran. `customErrorMessage` is the
`field.customErrorMessage` slot consulted for falsy synchronous results
(never assigned anywhere in the repository, hence normally `none`). -/
def validatorValidate (v : ValidatorM) (customErrorMessage : Option String)
    (fnResult : FnRes) (req : ReqVal) : VOutcome × Bool :=
  match fnResult with
  | .throws e => (.throwsSync e, true)
  | .thenable (.ok s) => (.resolves s, false)
  | .thenable (.error reason) => (.rejects (validatorRejectWith v reason req), false)
  | .sync true => (.resolves none, false)
  | .sync false =>
    let base := match customErrorMessage with
      | some m => if m = "" then v.message else m
      | none => v.message
    (.rejects (validatorRejectWith v (.str base) req), false)

/-! ## RemoteValidator -/

/-- The spec object passed to `new RemoteValidator({...})` /
`Fiddo.addValidator(name, spec)` for a remote rule; `none` marks an absent
property, so the constructor defaults apply. -/
structure RemoteSpec where
  name : String
  message : Option String := none
  url : Option String := none
  method : Option String := none
  dataKey : Option String := none
  priority : Option Int := none
deriving DecidableEq, Repr

/-- `RemoteValidator` constructor default: `method = 'POST'`. -/
def remoteValidatorMethod (s : RemoteSpec) : String :=
  s.method.getD "POST"

/-- `RemoteValidator` constructor default: `dataKey = 'value'`. -/
def remoteValidatorDataKey (s : RemoteSpec) : String :=
  s.dataKey.getD "value"

/-- `RemoteValidator` constructor default: `priority = 10`. -/
def remoteValidatorPriority (s : RemoteSpec) : Int :=
  s.priority.getD 10

/-- The `$.ajax` request payload built by `RemoteValidator.validateFn`:
`{ [this.dataKey]: values, ...extra }`, as an ordered key/value list (the
`dataKey` entry first, then the spread `extra` entries). -/
def remotePayload (s : RemoteSpec) (values : JsVal) (extra : List (String × String)) :
    List (String × JsVal) :=
  (remoteValidatorDataKey s, values) :: extra.map (fun kv => (kv.1, JsVal.str kv.2))

/-! ## Constraints and the priority sort of `Field._buildValidationsFor` -/

/-- The deterministic outcome of `Constraint.validateConstraint` at the
entity's current value: a resolution (optional success message), a rejection
with a `ValidationError` (all promise rejections of `Validator.validate` are
`ValidationError`s), or a synchronous throw. -/
inductive CEval
  | resolves (s : Option String)
  | rejects (e : VErr)
  | throwsSync (e : JsError)
deriving DecidableEq, Repr

/-- A `Constraint` as seen by one evaluation: rule name, effective priority
(`this.validator?.priority ?? 0`), declared requirements, and the outcome of
evaluating it at the current value. -/
structure ConstraintM where
  name : String
  priority : Int
  requirements : ReqVal := .b true
  eval : CEval := .resolves none
deriving DecidableEq, Repr

/-- One step of the stable descending sort: insert `c` in front of the first
already-placed constraint of strictly smaller priority, keeping `c` before
equal-priority constraints that came later in the source order. -/
def insertDesc (c : ConstraintM) : List ConstraintM → List ConstraintM
  | [] => [c]
  | d :: ds => if d.priority ≤ c.priority then c :: d :: ds else d :: insertDesc c ds

/-- `Object.values(this.constraints).sort((a, b) => (b.priority ?? 0) - (a.priority ?? 0))`:
JavaScript's `Array.prototype.sort` is stable and this comparator is
consistent, so the result is the unique stable descending-priority
rearrangement — modelled by stable insertion sort. -/
def sortByPriorityDesc : List ConstraintM → List ConstraintM
  | [] => []
  | c :: cs => insertDesc c (sortByPriorityDesc cs)

theorem insertDesc_perm (c : ConstraintM) (l : List ConstraintM) :
    (insertDesc c l).Perm (c :: l) := by
  induction l with
  | nil => exact List.Perm.refl _
  | cons d ds ih =>
    rw [insertDesc]
    split
    · exact List.Perm.refl _
    · exact ((ih.cons d).trans (List.Perm.swap c d ds))

theorem sortByPriorityDesc_perm (l : List ConstraintM) :
    (sortByPriorityDesc l).Perm l := by
  induction l with
  | nil => exact List.Perm.refl _
  | cons c cs ih =>
    exact (insertDesc_perm c (sortByPriorityDesc cs)).trans (ih.cons c)

theorem insertDesc_sorted (c : ConstraintM) (l : List ConstraintM)
    (h : l.Pairwise (fun a b => b.priority ≤ a.priority)) :
    (insertDesc c l).Pairwise (fun a b => b.priority ≤ a.priority) := by
  induction l with
  | nil => simp [insertDesc]
  | cons d ds ih =>
    rw [insertDesc]
    rcases List.pairwise_cons.mp h with ⟨hd, hds⟩
    split
    · rename_i hle
      refine List.pairwise_cons.mpr ⟨?_, h⟩
      intro x hx
      rcases List.mem_cons.mp hx with rfl | hx
      · exact hle
      · exact le_trans (hd x hx) hle
    · rename_i hgt
      push_neg at hgt
      refine List.pairwise_cons.mpr ⟨?_, ih hds⟩
      intro x hx
      rcases List.mem_cons.mp ((insertDesc_perm c ds).mem_iff.mp hx) with rfl | hx
      · exact le_of_lt hgt
      · exact hd x hx

theorem sortByPriorityDesc_sorted (l : List ConstraintM) :
    (sortByPriorityDesc l).Pairwise (fun a b => b.priority ≤ a.priority) := by
  induction l with
  | nil => simp [sortByPriorityDesc]
  | cons c cs ih => exact insertDesc_sorted c _ ih

theorem insertDesc_filter (c : ConstraintM) (l : List ConstraintM) (p : Int) :
    (insertDesc c l).filter (fun d => d.priority = p)
      = if c.priority = p then c :: l.filter (fun d => d.priority = p)
        else l.filter (fun d => d.priority = p) := by
  induction l with
  | nil => by_cases h : c.priority = p <;> simp [insertDesc, h]
  | cons d ds ih =>
    rw [insertDesc]
    by_cases hcd : d.priority ≤ c.priority
    · rw [if_pos hcd]
      by_cases hc : c.priority = p <;> simp [hc, List.filter_cons]
    · push_neg at hcd
      rw [if_neg (not_le.mpr hcd)]
      by_cases hc : c.priority = p
      · have hd : ¬ d.priority = p := by
          intro hdp
          exact absurd (hdp.trans hc.symm).le (not_le.mpr hcd)
        simp [List.filter_cons, hd, hc, ih]
      · by_cases hd : d.priority = p <;>
          simp [List.filter_cons, hd, hc, ih]

/-- Stability: for each priority class, the sorted list lists exactly the
input's constraints of that priority in their original relative order. -/
theorem sortByPriorityDesc_stable (l : List ConstraintM) (p : Int) :
    (sortByPriorityDesc l).filter (fun d => d.priority = p)
      = l.filter (fun d => d.priority = p) := by
  induction l with
  | nil => rfl
  | cons c cs ih =>
    rw [sortByPriorityDesc, insertDesc_filter, List.filter_cons]
    by_cases hc : c.priority = p <;> simp [hc, ih]

/-- A constraint of strictly maximal priority comes out first. -/
theorem sortByPriorityDesc_head_of_max (l : List ConstraintM) (c : ConstraintM)
    (hc : c ∈ l) (hmax : ∀ d ∈ l, d ≠ c → d.priority < c.priority) :
    (sortByPriorityDesc l).head? = some c := by
  have hperm := sortByPriorityDesc_perm l
  have hsort := sortByPriorityDesc_sorted l
  cases hs : sortByPriorityDesc l with
  | nil =>
    exact absurd (hperm.symm.subset hc) (by simp [hs])
  | cons h t =>
    rw [hs] at hperm hsort
    have hhl : h ∈ l := hperm.subset (List.mem_cons_self h t)
    by_cases hhc : h = c
    · simp [hhc]
    · have hlt : h.priority < c.priority := hmax h hhl hhc
      have hcs : c ∈ h :: t := hperm.symm.subset hc
      rcases List.mem_cons.mp hcs with rfl | hct
      · exact absurd rfl hhc
      · have : c.priority ≤ h.priority :=
          (List.pairwise_cons.mp hsort).1 c hct
        exact absurd hlt (not_lt.mpr this)

/-- A constraint of strictly minimal priority comes out last. -/
theorem sortByPriorityDesc_getLast_of_min (l : List ConstraintM) (c : ConstraintM)
    (hc : c ∈ l) (hmin : ∀ d ∈ l, d ≠ c → c.priority < d.priority) :
    (sortByPriorityDesc l).getLast? = some c := by
  have hperm := sortByPriorityDesc_perm l
  have hsort := sortByPriorityDesc_sorted l
  rw [List.getLast?_eq_head?_reverse]
  have hperm' : (sortByPriorityDesc l).reverse.Perm l :=
    (List.reverse_perm _).trans hperm
  have hsort' : (sortByPriorityDesc l).reverse.Pairwise
      (fun a b => a.priority ≤ b.priority) := by
    rw [List.pairwise_reverse]
    exact hsort
  cases hs : (sortByPriorityDesc l).reverse with
  | nil =>
    exact absurd (hperm'.symm.subset hc) (by simp [hs])
  | cons h t =>
    rw [hs] at hperm' hsort'
    have hhl : h ∈ l := hperm'.subset (List.mem_cons_self h t)
    by_cases hhc : h = c
    · simp [hhc]
    · have hlt : c.priority < h.priority := hmin h hhl hhc
      have hcs : c ∈ h :: t := hperm'.symm.subset hc
      rcases List.mem_cons.mp hcs with rfl | hct
      · exact absurd rfl hhc
      · have : h.priority ≤ c.priority :=
          (List.pairwise_cons.mp hsort').1 c hct
        exact absurd hlt (not_lt.mpr this)

/-- The built-in (`standardValidators`) rule table's declared priorities. -/
def standardPriorities : List (String × Int) :=
  [("required", 100), ("minrequired", 50), ("pattern", 70), ("min", 60),
   ("max", 60), ("range", 61), ("minlength", 50), ("maxlength", 50),
   ("length", 51), ("equalto", 40), ("notequalto", 40), ("gt", 40),
   ("gte", 40), ("lt", 40), ("lte", 40), ("mincheck", 30), ("maxcheck", 30),
   ("check", 31), ("date", 60), ("type", 70)]

/-- `RemoteValidator` constructor default priority. -/
def remoteDefaultPriority : Int := 10

/-- Base `Validator` constructor default priority (custom rules that do not
declare one). -/
def customDefaultPriority : Int := 0

/-! ## Conditional gate (`Field.shouldValidate`) -/

/-- What a `validate-if` locator resolves to when it matches: a checkbox
(read via `:checked`), a single or multiple select (non-empty value(s)), or
any other element (non-empty value). -/
inductive SelTarget
  | checkbox (checked : Bool)
  | selectOne (val : String)
  | selectMany (vals : List String)
  | other (val : String)
deriving DecidableEq, Repr

/-- A condition source for `validateIf` / `notValidateIf`, by the cases of
`evaluateConditionValue`: a locator (with `none` when it matches no element,
which the code raises and then catches), a named global function, an inline
expression, or a direct function reference — the last three with `none`
when the call/evaluation throws. -/
inductive CondSource
  | selector (target : Option SelTarget)
  | globalFn (result : Option Bool)
  | expr (result : Option Bool)
  | funcRef (result : Option Bool)
deriving DecidableEq, Repr

/-- `evaluateConditionValue(condition)`: returns the boolean outcome and
whether the `Utils.warn` fail-safe branch ran (any raised error is caught,
logged and treated as condition-false). -/
def evaluateConditionValue : CondSource → Bool × Bool
  | .selector none => (false, true)
  | .selector (some (.checkbox b)) => (b, false)
  | .selector (some (.selectOne v)) => (v ≠ "", false)
  | .selector (some (.selectMany vs)) => (!vs.isEmpty, false)
  | .selector (some (.other v)) => (v ≠ "", false)
  | .globalFn none => (false, true)
  | .globalFn (some b) => (b, false)
  | .expr none => (false, true)
  | .expr (some b) => (b, false)
  | .funcRef none => (false, true)
  | .funcRef (some b) => (b, false)

/-- `Field.shouldValidate()`: `should && !shouldNot` where an absent
`validateIf` counts as true and an absent `notValidateIf` as false.
Also reports whether any evaluated condition logged a warning. -/
def shouldValidateM (vIf nvIf : Option CondSource) : Bool × Bool :=
  let s := match vIf with
    | none => (true, false)
    | some c => evaluateConditionValue c
  let n := match nvIf with
    | none => (false, false)
    | some c => evaluateConditionValue c
  (s.1 && !n.1, s.2 || n.2)

/-! ## The Field evaluation pipeline (`Field.whenValidate`) -/

/-- The settled outcome of `Field.whenValidate()`: resolution with the
current value, rejection with the field itself (`reject(this)`), or — only
on the concurrent strategy when a constraint throws while being started —
rejection with the raw error. -/
inductive WhenResult
  | resolved (v : JsVal)
  | rejectedField
  | rejectedError (e : JsError)
deriving DecidableEq, Repr

/-- Everything one `whenValidate` run reads: the current value, the
`_lastValidatedValue` / `_lastValidationState` cache, the element kind and
visibility, the conditional-gate declarations, the constraint map (in
insertion order) and the configured strategy. -/
structure EvalCtx where
  value : JsVal
  lastValidatedValue : Option JsVal := none
  lastValidationState : Option Bool := none
  isCheckboxOrRadio : Bool := false
  validateIf : Option CondSource := none
  notValidateIf : Option CondSource := none
  visible : Bool := true
  constraints : List ConstraintM := []
  stopAtFirstError : Bool := true
deriving DecidableEq, Repr

/-- `Field._isRequired()`: a `required` constraint exists and its
requirement is not `false`. -/
def isRequiredM (constraints : List ConstraintM) : Bool :=
  match constraints.find? (fun c => c.name = "required") with
  | some c => !(c.requirements == ReqVal.b false)
  | none => false

/-- In `Utils.runSequential`, a thunk's synchronous throw and a promise
rejection are pushed into the error list the same way. -/
def ceValToSeqExcept : CEval → Except (Sum VErr JsError) (Option String)
  | .resolves s => .ok s
  | .rejects e => .error (.inl e)
  | .throwsSync e => .error (.inr e)

/-- How many thunks the sequential strategy actually invokes: everything up
to and including the first failing one. -/
def seqCount : List CEval → Nat
  | [] => 0
  | .resolves _ :: rest => 1 + seqCount rest
  | _ :: _ => 1

/-- Starting all constraint evaluations for the concurrent strategy
(`sorted.map(c => c.validateConstraint(value))`): a synchronous throw during
the map aborts it and escapes; otherwise the started promises' settled
outcomes are collected. -/
def startAll : List CEval → Except JsError (List (Except VErr (Option String)))
  | [] => .ok []
  | .throwsSync e :: _ => .error e
  | .resolves s :: rest => (startAll rest).map (fun l => .ok s :: l)
  | .rejects e :: rest => (startAll rest).map (fun l => .error e :: l)

/-- How many constraint evaluations the concurrent strategy actually starts:
all of them, unless one throws synchronously mid-map. -/
def startCount : List CEval → Nat
  | [] => 0
  | .throwsSync _ :: _ => 1
  | _ :: rest => 1 + startCount rest

/-- `Field.whenValidate()` as a function of the evaluation context and the
result of the `_preValidate` hook (`.ok` for a plain `Field`; a `GroupField`
substitutes its child gate). Returns the settled outcome and the number of
this entity's own constraint evaluations that were invoked.
Pipeline, in source order: the value cache; the
checkbox/radio–conditional-gate–no-constraints–invisible skip
(`resolveAsValid`); the empty-optional skip; then `_preValidate` followed by
`_buildValidationsFor` and `_finalizeValidationResult` (whose
`onErrorMessages instanceof Error` branch is unreachable here because both
strategies reject with arrays). -/
def whenValidateCore (ctx : EvalCtx) (pre : Except Unit Unit) : WhenResult × Nat :=
  if areEqualsOpt ctx.value ctx.lastValidatedValue && ctx.lastValidationState.isSome then
    (match ctx.lastValidationState with
     | some true => (.resolved ctx.value, 0)
     | _ => (.rejectedField, 0))
  else if ctx.isCheckboxOrRadio
      || !(shouldValidateM ctx.validateIf ctx.notValidateIf).1
      || ctx.constraints.isEmpty
      || !ctx.visible then
    (.resolved ctx.value, 0)
  else if utilsEmpty ctx.value && !isRequiredM ctx.constraints then
    (.resolved ctx.value, 0)
  else
    match pre with
    | .error _ => (.rejectedField, 0)
    | .ok _ =>
      let evals := (sortByPriorityDesc ctx.constraints).map (fun c => c.eval)
      if ctx.stopAtFirstError then
        match utilsRunSequential (evals.map ceValToSeqExcept) with
        | .ok _ => (.resolved ctx.value, seqCount evals)
        | .error _ => (.rejectedField, seqCount evals)
      else
        match startAll evals with
        | .error e => (.rejectedError e, startCount evals)
        | .ok settled =>
          match utilsAll settled with
          | .ok _ => (.resolved ctx.value, startCount evals)
          | .error _ => (.rejectedField, startCount evals)

/-- The state of a leaf `Field` (a `GroupField`'s children are always plain
`Field`s). `checked` and `elementValue` are the DOM `checked` flag and
`value` attribute, read only by the owning group's `getValue`. -/
structure FieldStateM where
  value : JsVal
  lastValidatedValue : Option JsVal := none
  lastValidationState : Option Bool := none
  isCheckboxOrRadio : Bool := false
  validateIf : Option CondSource := none
  notValidateIf : Option CondSource := none
  visible : Bool := true
  constraints : List ConstraintM := []
  stopAtFirstError : Bool := true
  checked : Bool := false
  elementValue : String := ""
deriving DecidableEq, Repr

/-- The evaluation context a leaf field presents. -/
def FieldStateM.toCtx (st : FieldStateM) : EvalCtx :=
  { value := st.value, lastValidatedValue := st.lastValidatedValue,
    lastValidationState := st.lastValidationState,
    isCheckboxOrRadio := st.isCheckboxOrRadio, validateIf := st.validateIf,
    notValidateIf := st.notValidateIf, visible := st.visible,
    constraints := st.constraints, stopAtFirstError := st.stopAtFirstError }

/-- `Field.whenValidate()` for a leaf field: `_preValidate` resolves. -/
def leafWhenValidate (st : FieldStateM) : WhenResult × Nat :=
  whenValidateCore st.toCtx (.ok ())

/-! ## GroupField: derived value and child gating (`GroupField._preValidate`) -/

/-- `this.multipleType`: set to `checkbox`/`radio` when the children are
discrete-choice inputs, otherwise absent (the `switch` default branch). -/
inductive MultipleType
  | checkbox
  | radio
  | plain
deriving DecidableEq, Repr

/-- `GroupField.getValue()`: checked children's `value` attributes for a
checkbox group, the checked child's `value` for a radio group, else the
array of child values (children of a plain group are scalar text inputs,
read back as strings). -/
def groupGetValue (mt : MultipleType) (children : List FieldStateM) : JsVal :=
  match mt with
  | .checkbox => .arr ((children.filter (fun f => f.checked)).map (fun f => f.elementValue))
  | .radio =>
    .str (match children.find? (fun f => f.checked) with
          | some f => f.elementValue
          | none => "")
  | .plain => .arr (children.map (fun f => jsToString f.value))

/-- The valid/invalid verdict of running a batch under the configured
strategy (`const run = this.options?.stopAtFirstError ? Utils.runSequential : Utils.all`). -/
def runVerdict {ε α : Type} (stopAtFirstError : Bool) (results : List (Except ε α)) : Bool :=
  if stopAtFirstError then (utilsRunSequential results).isOk
  else (utilsAll results).isOk

theorem runVerdict_eq {ε α : Type} (stopAtFirstError : Bool) (results : List (Except ε α)) :
    runVerdict stopAtFirstError results = results.all (fun r => r.isOk) := by
  cases stopAtFirstError <;>
    simp [runVerdict, utilsRunSequential_isOk, utilsAll_isOk]

/-- `GroupField._preValidate()`: no children → proceed; a known-invalid
child → reject with the group; otherwise re-validate exactly the children
that were never validated or whose value changed, and proceed only if every
outcome (cached or fresh) is valid. Both orchestration strategies reject
with an array, never a raw `Error`, so the `errs instanceof Error` bubble
never fires and a failing child always yields `reject(this)`; the final
valid/invalid verdict of the child run does not depend on the strategy
(strategy equivalence), so only the verdict is computed here. -/
def groupPreValidate (stopAtFirstError : Bool) (children : List FieldStateM) :
    Except Unit Unit :=
  if children.isEmpty then .ok ()
  else if children.any (fun f => f.lastValidationState == some false) then .error ()
  else
    let need := children.filter (fun f =>
      f.lastValidationState == none || !(areEqualsOpt f.value f.lastValidatedValue))
    if need.isEmpty then
      if children.all (fun f => f.lastValidationState == some true) then .ok ()
      else .error ()
    else
      let results := need.map (fun f =>
        match (leafWhenValidate f).1 with
        | .resolved v => (Except.ok v : Except Unit JsVal)
        | .rejectedField => .error ()
        | .rejectedError _ => .error ())
      let verdict := runVerdict stopAtFirstError results
      if verdict then .ok () else .error ()

/-- The state of a `GroupField`: its own field state plus the managed
children and their discrete-choice kind. The group element is a container
(never an `input`), so its own `element.type` is not checkbox/radio. -/
structure GroupStateM where
  lastValidatedValue : Option JsVal := none
  lastValidationState : Option Bool := none
  validateIf : Option CondSource := none
  notValidateIf : Option CondSource := none
  visible : Bool := true
  constraints : List ConstraintM := []
  stopAtFirstError : Bool := true
  multipleType : MultipleType := .plain
  children : List FieldStateM := []
deriving DecidableEq, Repr

/-- The evaluation context a group presents: the derived value and
`isCheckboxOrRadio = false` for the container element. -/
def GroupStateM.toCtx (g : GroupStateM) : EvalCtx :=
  { value := groupGetValue g.multipleType g.children,
    lastValidatedValue := g.lastValidatedValue,
    lastValidationState := g.lastValidationState,
    isCheckboxOrRadio := false, validateIf := g.validateIf,
    notValidateIf := g.notValidateIf, visible := g.visible,
    constraints := g.constraints, stopAtFirstError := g.stopAtFirstError }

/-- `GroupField`'s `whenValidate()`: the inherited pipeline with the child
gate as `_preValidate`. -/
def groupWhenValidate (g : GroupStateM) : WhenResult × Nat :=
  whenValidateCore g.toCtx (groupPreValidate g.stopAtFirstError g.children)

/-! ## Strategy equivalence lemmas -/

/-- The final valid/invalid verdict of a settled `whenValidate`:
`true` for resolve, `false` for either kind of reject. -/
def verdictOf : WhenResult → Bool
  | .resolved _ => true
  | .rejectedField => false
  | .rejectedError _ => false

/-- All constraint evaluations of this run resolve. -/
def allResolve (evals : List CEval) : Bool :=
  evals.all (fun e => match e with | .resolves _ => true | _ => false)

theorem seq_verdict (evals : List CEval) :
    (utilsRunSequential (evals.map ceValToSeqExcept)).isOk = allResolve evals := by
  rw [utilsRunSequential_isOk]
  induction evals with
  | nil => rfl
  | cons e rest ih =>
    cases e <;> simp_all [allResolve, ceValToSeqExcept, Except.isOk, Except.toBool]

theorem par_verdict (evals : List CEval) :
    (match startAll evals with
     | .error _ => false
     | .ok settled => (utilsAll settled).isOk) = allResolve evals := by
  induction evals with
  | nil => rfl
  | cons e rest ih =>
    cases e with
    | resolves s =>
      rw [startAll]
      have hall : allResolve (CEval.resolves s :: rest) = allResolve rest := by
        simp [allResolve]
      rw [hall]
      cases h : startAll rest with
      | error e' =>
        rw [h] at ih
        exact ih
      | ok settled =>
        rw [h] at ih
        show (utilsAll (Except.ok s :: settled)).isOk = allResolve rest
        have hcons : (utilsAll (Except.ok s :: settled)).isOk = (utilsAll settled).isOk := by
          rw [utilsAll_isOk, utilsAll_isOk]
          simp [Except.isOk, Except.toBool]
        rw [hcons]
        exact ih
    | rejects e' =>
      rw [startAll]
      have hall : allResolve (CEval.rejects e' :: rest) = false := by
        simp [allResolve]
      rw [hall]
      cases h : startAll rest with
      | error e'' => rfl
      | ok settled =>
        show (utilsAll (Except.error e' :: settled)).isOk = false
        rw [utilsAll_isOk]
        simp [Except.isOk, Except.toBool]
    | throwsSync e' =>
      rw [startAll]
      have hall : allResolve (CEval.throwsSync e' :: rest) = false := by
        simp [allResolve]
      rw [hall]

/-- The verdict of one `whenValidate` run, independent of the execution
strategy: the cached verdict on a cache hit, valid on the skip branches,
and otherwise — after the pre-validation hook — valid iff every constraint
evaluation resolves. -/
theorem whenValidateCore_verdict (ctx : EvalCtx) (pre : Except Unit Unit) :
    verdictOf (whenValidateCore ctx pre).1 =
      (if areEqualsOpt ctx.value ctx.lastValidatedValue && ctx.lastValidationState.isSome then
         ctx.lastValidationState == some true
       else if ctx.isCheckboxOrRadio
           || !(shouldValidateM ctx.validateIf ctx.notValidateIf).1
           || ctx.constraints.isEmpty
           || !ctx.visible then true
       else if utilsEmpty ctx.value && !isRequiredM ctx.constraints then true
       else match pre with
         | .error _ => false
         | .ok _ => allResolve ((sortByPriorityDesc ctx.constraints).map (fun c => c.eval))) := by
  rw [whenValidateCore.eq_def]
  by_cases h1 : (areEqualsOpt ctx.value ctx.lastValidatedValue
      && ctx.lastValidationState.isSome) = true
  · simp only [h1, if_true]
    cases hs : ctx.lastValidationState with
    | none => rw [hs] at h1; simp at h1
    | some b => cases b <;> simp [verdictOf]
  · simp only [h1, if_false, Bool.false_eq_true]
    by_cases h2 : (ctx.isCheckboxOrRadio
        || !(shouldValidateM ctx.validateIf ctx.notValidateIf).1
        || ctx.constraints.isEmpty
        || !ctx.visible) = true
    · simp [h2, verdictOf]
    · simp only [h2, if_false, Bool.false_eq_true]
      by_cases h3 : (utilsEmpty ctx.value && !isRequiredM ctx.constraints) = true
      · simp [h3, verdictOf]
      · simp only [h3, if_false, Bool.false_eq_true]
        cases pre with
        | error u => simp [verdictOf]
        | ok u =>
          simp only []
          set evals := (sortByPriorityDesc ctx.constraints).map (fun c => c.eval) with hevals
          by_cases hstop : ctx.stopAtFirstError = true
          · simp only [hstop, if_true]
            have hv := seq_verdict evals
            cases h : utilsRunSequential (evals.map ceValToSeqExcept) with
            | ok vs =>
              rw [h] at hv
              simp only [Except.isOk, Except.toBool] at hv
              exact hv
            | error es =>
              rw [h] at hv
              simp only [Except.isOk, Except.toBool] at hv
              exact hv
          · simp only [hstop, if_false, Bool.false_eq_true]
            have hv := par_verdict evals
            cases h : startAll evals with
            | error e =>
              rw [h] at hv
              exact hv
            | ok settled =>
              rw [h] at hv
              dsimp only at hv ⊢
              cases h2 : utilsAll settled with
              | ok vals =>
                rw [h2] at hv
                simp only [Except.isOk, Except.toBool] at hv
                exact hv
              | error es =>
                rw [h2] at hv
                simp only [Except.isOk, Except.toBool] at hv
                exact hv

theorem groupPreValidate_strategy_indep (children : List FieldStateM) :
    groupPreValidate true children = groupPreValidate false children := by
  rw [groupPreValidate, groupPreValidate]
  simp only [runVerdict_eq]

/-- `standardValidators.required.validate`: `(value) => !Utils.empty(value)`. -/
def requiredValidate (v : JsVal) : Bool :=
  !(utilsEmpty v)

/-! ## Claim theorems -/

/-- C1: for every set of constraints attached to an entity and every value,
when no constraint predicate has an observable side effect (so both
strategies see the same list of per-evaluation outcomes), the sequential
short-circuit strategy (`Utils.runSequential` over thunks) and the
concurrent exhaustive strategy (`Utils.all` over started promises) yield
the same final valid/invalid verdict — at the orchestrator level, for a
whole `Field.whenValidate` run, and for a whole `GroupField` run including
its child gate; the strategies may differ only in which evaluations were
actually started (`seqCount` vs `startCount`) and in the collected reasons. -/
theorem c1_strategy_equivalence :
    (∀ (ε α : Type) (outcomes : List (Except ε α)),
        (utilsRunSequential outcomes).isOk = (utilsAll outcomes).isOk)
    ∧ (∀ (ctx : EvalCtx) (pre : Except Unit Unit),
        verdictOf (whenValidateCore { ctx with stopAtFirstError := true } pre).1
          = verdictOf (whenValidateCore { ctx with stopAtFirstError := false } pre).1)
    ∧ (∀ g : GroupStateM,
        verdictOf (groupWhenValidate { g with stopAtFirstError := true }).1
          = verdictOf (groupWhenValidate { g with stopAtFirstError := false }).1) := by
  refine ⟨?_, ?_, ?_⟩
  · intro ε α outcomes
    rw [utilsRunSequential_isOk, utilsAll_isOk]
  · intro ctx pre
    rw [whenValidateCore_verdict, whenValidateCore_verdict]
  · intro g
    rw [groupWhenValidate, groupWhenValidate]
    dsimp only [GroupStateM.toCtx]
    rw [whenValidateCore_verdict, whenValidateCore_verdict]
    rw [groupPreValidate_strategy_indep]

/-- C3: evaluating a second time with a current value deep-equal to the last
evaluated value while the last state is settled returns the cached outcome:
zero constraints are executed and the run resolves (cached valid) or rejects
with the field (cached invalid) exactly as the first run settled. -/
theorem c3_idempotent_cache (st : FieldStateM) (b : Bool)
    (hval : areEqualsOpt st.value st.lastValidatedValue = true)
    (hstate : st.lastValidationState = some b) :
    leafWhenValidate st
      = ((if b then WhenResult.resolved st.value else WhenResult.rejectedField), 0) := by
  rw [leafWhenValidate, whenValidateCore.eq_def]
  dsimp only [FieldStateM.toCtx]
  rw [hval, hstate]
  cases b <;> simp

/-- C3 witness: a field whose value `"ab"` equals the cached
`_lastValidatedValue` and whose cached state is invalid re-settles invalid
with zero constraint executions. -/
theorem c3_idempotent_cache_witness :
    areEqualsOpt (JsVal.str "ab") (some (JsVal.str "ab")) = true
    ∧ leafWhenValidate
        { value := .str "ab", lastValidatedValue := some (.str "ab"),
          lastValidationState := some false,
          constraints := [⟨"minlength", 50, .s "3", .rejects ⟨"minlength", "too short"⟩⟩] }
        = (WhenResult.rejectedField, 0) :=
  ⟨by decide,
   c3_idempotent_cache
     { value := .str "ab", lastValidatedValue := some (.str "ab"),
       lastValidationState := some false,
       constraints := [⟨"minlength", 50, .s "3", .rejects ⟨"minlength", "too short"⟩⟩] }
     false (by decide) rfl⟩

/-- C5 counterexample: the claim says an unexpected remote (transport)
failure is "never converted into a ValidationError", but
`Validator.validate`'s thenable `catch` hands every rejection reason to
`_reject`, which wraps it into a `ValidationError` — here a rejected remote
call with reason `"Internal Server Error"` becomes
`ValidationError{assert:"emailAvailable"}`. -/
theorem c5_counterexample :
    validatorValidate ⟨"emailAvailable", "This email is already registered", 10⟩ none
        (.thenable (.error (.str "Internal Server Error"))) (.s "a@b.com")
      = (VOutcome.rejects ⟨"emailAvailable", "Internal Server Error"⟩, false) := by
  decide

/-- C5 amended: an unexpected exception thrown synchronously by a validator
predicate is logged (`console.error`) and re-thrown out of
`Validator.validate` rather than swallowed or converted; a remote call's
rejection, however — including a non-validation transport failure — is
caught by `Validator.validate` and converted into a `ValidationError` built
from the rejection reason. -/
theorem c5_error_propagation_amended :
    (∀ (v : ValidatorM) (cEM : Option String) (e : JsError) (req : ReqVal),
        validatorValidate v cEM (.throws e) req = (VOutcome.throwsSync e, true))
    ∧ (∀ (v : ValidatorM) (cEM : Option String) (r : RejReason) (req : ReqVal),
        validatorValidate v cEM (.thenable (.error r)) req
          = (VOutcome.rejects (validatorRejectWith v r req), false)) :=
  ⟨fun _ _ _ _ => rfl, fun _ _ _ _ => rfl⟩

/-- C6: the spec and the repository's documentation say the HTTP method
defaults to GET, but the `RemoteValidator` constructor declares
`method = 'POST'` — a remote rule that does not override the method issues a
POST request. -/
theorem c6_code_default_method :
    remoteValidatorMethod
        { name := "emailAvailable", url := some "/api/users/email/available",
          dataKey := some "email" }
      = "POST"
    ∧ ("POST" : String) ≠ "GET" := by
  decide

/-- C7: the payload is `{ [dataKey]: value, ...extra }` and an undeclared
`dataKey` defaults to `"value"`, but the documented `dataKey: "*"` →
use-the-rule's-own-name substitution is not implemented: the literal key
`"*"` is sent instead of the rule name `uniquePhone`. -/
theorem c7_code_payload_key :
    remotePayload { name := "uniquePhone", dataKey := some "*" }
        (.str "0791234567") [("client_id", "123")]
      = [("*", JsVal.str "0791234567"), ("client_id", JsVal.str "123")]
    ∧ remoteValidatorDataKey { name := "uniquePhone" } = "value"
    ∧ remoteValidatorDataKey { name := "uniquePhone", dataKey := some "*" } ≠ "uniquePhone" := by
  refine ⟨rfl, rfl, by decide⟩

/-- C10: a synchronous validator predicate returning a falsy result always
rejects with a `ValidationError` whose `assert` is the rule's name and whose
message is the resolved message template with `%s` placeholders substituted
from the requirement value(s) — never a raw non-ValidationError value
(`field.customErrorMessage` is never assigned in the repository, hence
`none`). -/
theorem c10_sync_falsy_validation_error (v : ValidatorM) (req : ReqVal) :
    validatorValidate v none (.sync false) req
      = (VOutcome.rejects ⟨v.name, formatMessage v.message req⟩, false) := by
  simp [validatorValidate, validatorRejectWith, rejectBaseMessage]

/-- A constraint set as an entity may really carry it: a custom rule
registered with priority 150 (`addValidator` passes any declared priority
through), `required` (priority 100), a remote rule at its default priority
10, and a custom rule at the base-class default priority 0. -/
def c4Constraints : List ConstraintM :=
  [⟨"big", 150, .b true, .resolves none⟩,
   ⟨"required", 100, .b true, .resolves none⟩,
   ⟨"emailAvailable", 10, .s "/api/users/email/available", .resolves none⟩,
   ⟨"plain", 0, .b true, .resolves none⟩]

/-- C4 counterexample: on this constraint set the sorted execution order is
`big, required, emailAvailable, plain` — `required` does not evaluate before
every other rule (the priority-150 custom rule precedes it) and the remote
check is not last (the default-priority-0 custom rule follows it). -/
theorem c4_counterexample :
    (sortByPriorityDesc c4Constraints).map (fun c => c.name)
        = ["big", "required", "emailAvailable", "plain"]
    ∧ ((sortByPriorityDesc c4Constraints).map (fun c => c.name)).head? ≠ some "required"
    ∧ ((sortByPriorityDesc c4Constraints).map (fun c => c.name)).getLast? ≠ some "emailAvailable" := by
  refine ⟨by decide, by decide, by decide⟩

/-- C4 amended: before either execution strategy runs, the constraint list
is sorted by descending priority, stably (each priority class keeps its
original relative order) and deterministically (the sort is a pure function
of the list); a constraint of strictly maximal priority runs first and one
of strictly minimal priority runs last; in the built-in table `required`
has priority 100, strictly above every other built-in rule, and remote
checks default to priority 10, strictly below every built-in rule — so
`required` runs before and remote checks after all built-in rules, while a
custom rule (default priority 0) may declare any priority and land anywhere. -/
theorem c4_sort_amended :
    (∀ l : List ConstraintM,
        (sortByPriorityDesc l).Pairwise (fun a b => b.priority ≤ a.priority)
        ∧ (sortByPriorityDesc l).Perm l
        ∧ ∀ p : Int, (sortByPriorityDesc l).filter (fun d => d.priority = p)
            = l.filter (fun d => d.priority = p))
    ∧ (∀ (l : List ConstraintM) (c : ConstraintM), c ∈ l →
        (∀ d ∈ l, d ≠ c → d.priority < c.priority) →
        (sortByPriorityDesc l).head? = some c)
    ∧ (∀ (l : List ConstraintM) (c : ConstraintM), c ∈ l →
        (∀ d ∈ l, d ≠ c → c.priority < d.priority) →
        (sortByPriorityDesc l).getLast? = some c)
    ∧ (("required", (100 : Int)) ∈ standardPriorities
        ∧ ∀ q ∈ standardPriorities, q.1 ≠ "required" → q.2 < 100)
    ∧ (remoteDefaultPriority = 10
        ∧ ∀ q ∈ standardPriorities, remoteDefaultPriority < q.2)
    ∧ customDefaultPriority = 0 := by
  refine ⟨?_, sortByPriorityDesc_head_of_max, sortByPriorityDesc_getLast_of_min,
    ⟨by decide, by decide⟩, ⟨rfl, by decide⟩, rfl⟩
  intro l
  exact ⟨sortByPriorityDesc_sorted l, sortByPriorityDesc_perm l,
    fun p => sortByPriorityDesc_stable l p⟩

/-- C4 witness: on a built-in constraint set (`minlength@50`, `required@100`,
a remote check at its default 10), `required` sorts first and the remote
check last. -/
theorem c4_sort_amended_witness :
    (sortByPriorityDesc
        [⟨"minlength", 50, .s "3", .resolves none⟩,
         ⟨"required", 100, .b true, .resolves none⟩,
         ⟨"emailAvailable", 10, .s "/api", .resolves none⟩]).head?
      = some ⟨"required", 100, .b true, .resolves none⟩
    ∧ (sortByPriorityDesc
        [⟨"minlength", 50, .s "3", .resolves none⟩,
         ⟨"required", 100, .b true, .resolves none⟩,
         ⟨"emailAvailable", 10, .s "/api", .resolves none⟩]).getLast?
      = some ⟨"emailAvailable", 10, .s "/api", .resolves none⟩ :=
  ⟨c4_sort_amended.2.1
      [⟨"minlength", 50, .s "3", .resolves none⟩,
       ⟨"required", 100, .b true, .resolves none⟩,
       ⟨"emailAvailable", 10, .s "/api", .resolves none⟩]
      ⟨"required", 100, .b true, .resolves none⟩ (by decide) (by decide),
   c4_sort_amended.2.2.1
      [⟨"minlength", 50, .s "3", .resolves none⟩,
       ⟨"required", 100, .b true, .resolves none⟩,
       ⟨"emailAvailable", 10, .s "/api", .resolves none⟩]
      ⟨"emailAvailable", 10, .s "/api", .resolves none⟩ (by decide) (by decide)⟩

theorem bool_eq_false {b : Bool} (h : ¬ b = true) : b = false := by
  cases b
  · rfl
  · exact absurd rfl h

/-- With a known-invalid child, `GroupField._preValidate` rejects with the
group before touching anything else. -/
theorem groupPreValidate_error_of_invalid (stop : Bool) (children : List FieldStateM)
    (h : (children.any fun f => f.lastValidationState == some false) = true) :
    groupPreValidate stop children = .error () := by
  have hne : children.isEmpty = false := by
    cases children with
    | nil => simp at h
    | cons a l => rfl
  rw [groupPreValidate]
  simp [hne, h]

/-- When `_preValidate` rejects, no own-constraint evaluation is invoked on
any path of `whenValidate`. -/
theorem whenValidateCore_error_pre_count (ctx : EvalCtx) :
    (whenValidateCore ctx (.error ())).2 = 0 := by
  rw [whenValidateCore.eq_def]
  by_cases h1 : (areEqualsOpt ctx.value ctx.lastValidatedValue
      && ctx.lastValidationState.isSome) = true
  · simp only [h1, if_true]
    cases ctx.lastValidationState with
    | none => rfl
    | some b => cases b <;> rfl
  · simp only [bool_eq_false h1, Bool.false_eq_true, if_false]
    by_cases h2 : (ctx.isCheckboxOrRadio
        || !(shouldValidateM ctx.validateIf ctx.notValidateIf).1
        || ctx.constraints.isEmpty
        || !ctx.visible) = true
    · simp [h2]
    · simp only [bool_eq_false h2, Bool.false_eq_true, if_false]
      by_cases h3 : (utilsEmpty ctx.value && !isRequiredM ctx.constraints) = true
      · simp [h3]
      · simp only [bool_eq_false h3, Bool.false_eq_true, if_false]

/-- When `_preValidate` rejects and the run reaches it (no cache hit, no
skip branch, no empty-optional skip), `whenValidate` settles invalid with
zero own-constraint evaluations. -/
theorem whenValidateCore_error_pre (ctx : EvalCtx)
    (hcache : (areEqualsOpt ctx.value ctx.lastValidatedValue
        && ctx.lastValidationState.isSome) = false)
    (hskip : (ctx.isCheckboxOrRadio
        || !(shouldValidateM ctx.validateIf ctx.notValidateIf).1
        || ctx.constraints.isEmpty
        || !ctx.visible) = false)
    (hempty : (utilsEmpty ctx.value && !isRequiredM ctx.constraints) = false) :
    whenValidateCore ctx (.error ()) = (.rejectedField, 0) := by
  rw [whenValidateCore.eq_def]
  simp only [hcache, hskip, hempty, Bool.false_eq_true, if_false]

/-- C2 counterexample: a group with a non-empty child list whose only child
is cached invalid, but which has no own constraints, settles **valid**
(`resolveAsValid` fires on `!Utils.size(this.constraints)` before the child
gate is consulted) — the claim says its evaluation must reject. -/
theorem c2_counterexample :
    (GroupStateM.children
        { constraints := [],
          children := [{ value := .str "x", lastValidationState := some false,
                         constraints := [⟨"minlength", 50, .s "3",
                                          .rejects ⟨"minlength", "too short"⟩⟩] }] }) ≠ []
    ∧ (((GroupStateM.children
        { constraints := [],
          children := [{ value := .str "x", lastValidationState := some false,
                         constraints := [⟨"minlength", 50, .s "3",
                                          .rejects ⟨"minlength", "too short"⟩⟩] }] })).any
        fun f => f.lastValidationState == some false) = true
    ∧ (groupWhenValidate
        { constraints := [],
          children := [{ value := .str "x", lastValidationState := some false,
                         constraints := [⟨"minlength", 50, .s "3",
                                          .rejects ⟨"minlength", "too short"⟩⟩] }] }).1
      = WhenResult.resolved (.arr ["x"]) := by
  refine ⟨by decide, by decide, by decide⟩

/-- C2 amended: for every `GroupField`, if at least one child's cached
validation state is invalid at the moment the group evaluates, the group's
own constraints are never invoked during that evaluation; and provided the
evaluation reaches the pre-validation step — it is not served from the
value cache, the group has at least one constraint, its conditional gate
passes, it is visible, and its derived value is non-empty or the group is
required — the group's evaluation settles invalid (its promise rejects with
the group). -/
theorem c2_group_gating_amended :
    (∀ g : GroupStateM,
        (g.children.any fun f => f.lastValidationState == some false) = true →
        (groupWhenValidate g).2 = 0)
    ∧ (∀ g : GroupStateM,
        g.children ≠ [] →
        (g.children.any fun f => f.lastValidationState == some false) = true →
        (areEqualsOpt (groupGetValue g.multipleType g.children) g.lastValidatedValue
            && g.lastValidationState.isSome) = false →
        (shouldValidateM g.validateIf g.notValidateIf).1 = true →
        g.constraints.isEmpty = false →
        g.visible = true →
        (utilsEmpty (groupGetValue g.multipleType g.children)
            && !isRequiredM g.constraints) = false →
        groupWhenValidate g = (.rejectedField, 0)) := by
  constructor
  · intro g hinv
    rw [groupWhenValidate, groupPreValidate_error_of_invalid _ _ hinv]
    exact whenValidateCore_error_pre_count g.toCtx
  · intro g _hne hinv hcache hgate hcons hvis hempty
    rw [groupWhenValidate, groupPreValidate_error_of_invalid _ _ hinv]
    refine whenValidateCore_error_pre g.toCtx hcache ?_ hempty
    show (false || !(shouldValidateM g.validateIf g.notValidateIf).1
        || g.constraints.isEmpty || !g.visible) = false
    rw [hgate, hcons, hvis]
    rfl

/-- C2 witness: a group carrying a `minrequired` constraint over one
known-invalid text child, evaluating afresh with the non-empty derived value
`["x"]`, rejects with zero own-constraint executions. -/
theorem c2_group_gating_amended_witness :
    ((GroupStateM.children
        { constraints := [⟨"minrequired", 50, .s "1", .resolves none⟩],
          children := [{ value := .str "x", lastValidationState := some false,
                         constraints := [⟨"required", 100, .b true,
                                          .rejects ⟨"required", "This value is required."⟩⟩] }] }).any
        fun f => f.lastValidationState == some false) = true
    ∧ groupWhenValidate
        { constraints := [⟨"minrequired", 50, .s "1", .resolves none⟩],
          children := [{ value := .str "x", lastValidationState := some false,
                         constraints := [⟨"required", 100, .b true,
                                          .rejects ⟨"required", "This value is required."⟩⟩] }] }
      = (WhenResult.rejectedField, 0) :=
  ⟨by decide,
   c2_group_gating_amended.2
     { constraints := [⟨"minrequired", 50, .s "1", .resolves none⟩],
       children := [{ value := .str "x", lastValidationState := some false,
                      constraints := [⟨"required", 100, .b true,
                                       .rejects ⟨"required", "This value is required."⟩⟩] }] }
     (by decide) (by decide) (by decide) (by decide) (by decide) (by decide) (by decide)⟩

/-- A falsy include condition makes `shouldValidate()` false whatever the
exclude condition says. -/
theorem shouldValidateM_false_of_include (c : CondSource) (nvIf : Option CondSource)
    (h : (evaluateConditionValue c).1 = false) :
    (shouldValidateM (some c) nvIf).1 = false := by
  simp [shouldValidateM, h]

/-- C8 counterexample: a field whose include locator matches nothing
(condition fails, so the claim says it must settle valid without running any
constraint) nevertheless settles **invalid** when the current value is
deep-equal to `_lastValidatedValue` and the cached state is invalid — the
cache check runs before the conditional gate. -/
theorem c8_counterexample :
    (FieldStateM.validateIf
        { value := .str "v", lastValidatedValue := some (.str "v"),
          lastValidationState := some false,
          validateIf := some (.selector none),
          constraints := [⟨"minlength", 50, .s "3", .rejects ⟨"minlength", "too short"⟩⟩] })
      = some (.selector none)
    ∧ evaluateConditionValue (.selector none) = (false, true)
    ∧ (leafWhenValidate
        { value := .str "v", lastValidatedValue := some (.str "v"),
          lastValidationState := some false,
          validateIf := some (.selector none),
          constraints := [⟨"minlength", 50, .s "3", .rejects ⟨"minlength", "too short"⟩⟩] }).1
      = WhenResult.rejectedField := by
  refine ⟨rfl, rfl, by decide⟩

/-- C8 amended: the conditional gate passes iff the include condition
evaluates truthy (or is absent) and the exclude condition evaluates falsy
(or is absent); a locator matching no elements or a throwing expression is
treated as condition-false and logs a warning (not escalated); and — when
the evaluation is not served from the value cache with a cached-invalid
state — such a failure on the include condition makes the field settle
valid without running any constraint. -/
theorem c8_conditional_gate_amended :
    (∀ vIf nvIf : Option CondSource,
        (shouldValidateM vIf nvIf).1 = true
          ↔ ((∀ c, vIf = some c → (evaluateConditionValue c).1 = true)
             ∧ ∀ c, nvIf = some c → (evaluateConditionValue c).1 = false))
    ∧ evaluateConditionValue (.selector none) = (false, true)
    ∧ evaluateConditionValue (.expr none) = (false, true)
    ∧ (∀ (st : FieldStateM) (c : CondSource),
        st.validateIf = some c →
        evaluateConditionValue c = (false, true) →
        ¬(areEqualsOpt st.value st.lastValidatedValue = true
            ∧ st.lastValidationState = some false) →
        leafWhenValidate st = (.resolved st.value, 0)
          ∧ (shouldValidateM st.validateIf st.notValidateIf).2 = true) := by
  refine ⟨?_, rfl, rfl, ?_⟩
  · intro vIf nvIf
    cases vIf <;> cases nvIf <;>
      simp [shouldValidateM, Bool.and_eq_true, Bool.not_eq_true']
  · intro st c hvi hfail hcache
    have hfail1 : (evaluateConditionValue c).1 = false := by rw [hfail]
    have hgate : (shouldValidateM st.validateIf st.notValidateIf).1 = false := by
      rw [hvi]
      exact shouldValidateM_false_of_include c _ hfail1
    constructor
    · rw [leafWhenValidate, whenValidateCore.eq_def]
      dsimp only [FieldStateM.toCtx]
      by_cases h1 : (areEqualsOpt st.value st.lastValidatedValue
          && st.lastValidationState.isSome) = true
      · have hand := h1
        rw [Bool.and_eq_true] at hand
        obtain ⟨ha, _hb⟩ := hand
        cases hls : st.lastValidationState with
        | none => rw [hls] at h1; simp at h1
        | some bb =>
          cases bb
          · exact absurd ⟨ha, hls⟩ hcache
          · simp [ha, hls]
      · have hskip : (st.isCheckboxOrRadio
            || !(shouldValidateM st.validateIf st.notValidateIf).1
            || st.constraints.isEmpty
            || !st.visible) = true := by
          rw [hgate]
          simp
        simp only [bool_eq_false h1, Bool.false_eq_true, if_false, hskip, if_true]
    · rw [hvi]
      simp [shouldValidateM, hfail]

/-- C8 witness: a fresh (uncached) field whose include locator matches no
elements settles valid with zero constraint executions, and the warning
flag of the gate evaluation is set. -/
theorem c8_conditional_gate_amended_witness :
    leafWhenValidate
        { value := .str "v", validateIf := some (.selector none),
          constraints := [⟨"minlength", 50, .s "3", .rejects ⟨"minlength", "too short"⟩⟩] }
      = (WhenResult.resolved (.str "v"), 0)
    ∧ (shouldValidateM (some (.selector none)) none).2 = true :=
  c8_conditional_gate_amended.2.2.2
    { value := .str "v", validateIf := some (.selector none),
      constraints := [⟨"minlength", 50, .s "3", .rejects ⟨"minlength", "too short"⟩⟩] }
    (.selector none) rfl rfl (by decide)

/-- C9: a value of only whitespace characters is treated as empty: `required`
fails on it, and a field holding such a value with no required constraint
(and not served a cached-invalid outcome, a state unreachable for a
non-required field) settles valid executing zero constraints — the
optional-field skip. -/
theorem c9_whitespace_empty (st : FieldStateM) (s : String)
    (hv : st.value = .str s) (hws : jsTrim s = "")
    (hreq : isRequiredM st.constraints = false)
    (hcache : ¬(areEqualsOpt st.value st.lastValidatedValue = true
        ∧ st.lastValidationState = some false)) :
    leafWhenValidate st = (.resolved st.value, 0)
    ∧ utilsEmpty st.value = true
    ∧ requiredValidate st.value = false := by
  have hempty : utilsEmpty st.value = true := by
    rw [hv]
    simp [utilsEmpty, jsToString, hws]
  refine ⟨?_, hempty, ?_⟩
  · rw [leafWhenValidate, whenValidateCore.eq_def]
    dsimp only [FieldStateM.toCtx]
    by_cases h1 : (areEqualsOpt st.value st.lastValidatedValue
        && st.lastValidationState.isSome) = true
    · have hand := h1
      rw [Bool.and_eq_true] at hand
      obtain ⟨ha, _hb⟩ := hand
      cases hls : st.lastValidationState with
      | none => rw [hls] at h1; simp at h1
      | some bb =>
        cases bb
        · exact absurd ⟨ha, hls⟩ hcache
        · simp [ha, hls]
    · simp only [bool_eq_false h1, Bool.false_eq_true, if_false]
      by_cases h2 : (st.isCheckboxOrRadio
          || !(shouldValidateM st.validateIf st.notValidateIf).1
          || st.constraints.isEmpty
          || !st.visible) = true
      · simp only [h2, if_true]
      · have h3 : (utilsEmpty st.value && !isRequiredM st.constraints) = true := by
          rw [hempty, hreq]
          rfl
        simp only [bool_eq_false h2, Bool.false_eq_true, if_false, h3, if_true]
  · rw [requiredValidate, hempty]
    rfl

/-- C9 witness: the three-space value `"   "` is empty, fails `required`,
and an optional field holding it settles valid with zero executions even
though a `minlength` constraint is attached. -/
theorem c9_whitespace_empty_witness :
    jsTrim "   " = ""
    ∧ leafWhenValidate
        { value := .str "   ",
          constraints := [⟨"minlength", 50, .s "3", .rejects ⟨"minlength", "too short"⟩⟩] }
      = (WhenResult.resolved (.str "   "), 0)
    ∧ requiredValidate (.str "   ") = false :=
  ⟨by decide,
   (c9_whitespace_empty
      { value := .str "   ",
        constraints := [⟨"minlength", 50, .s "3", .rejects ⟨"minlength", "too short"⟩⟩] }
      "   " rfl (by decide) (by decide) (by decide)).1,
   (c9_whitespace_empty
      { value := .str "   ",
        constraints := [⟨"minlength", 50, .s "3", .rejects ⟨"minlength", "too short"⟩⟩] }
      "   " rfl (by decide) (by decide) (by decide)).2.2⟩

end Fiddo
